import Mathlib

/-!
Verification of the ya-relay relay server core against its specification.

The definitions below are a shallow embedding of the Rust sources:
  * `src/server/src/state.rs`   — node registry (`NodesState`)
  * `src/server/src/server.rs`  — dispatcher, forwarder, resume sweep
  * `src/server/src/challenge.rs` — proof-of-work challenge engine

Bytes are modelled as `Nat` (values < 256 in practice), byte strings as
`List Nat`. `NodeId` is a 20-byte string, `SessionId` a 16-byte string,
socket addresses are opaque (`Nat`). Machine integers that can overflow
(`timestamp() as u32`) are reduced `% 2^32` explicitly. Hash functions and
ECDSA recovery live in external crates (`sha3`, `sha2`, `ethsign`); the
Rust code is generic over `D: Digest`, and correspondingly they enter the
embedding as function parameters. The per-session token-bucket
(`governor::RateLimiter::check_n`) is an external crate call whose outcome
is passed to `forward` as an oracle argument of type `RateCheck`, exactly
mirroring the `match` on `NegativeMultiDecision` in the source.
-/

/-- Opaque byte string. -/
abbrev Bytes := List Nat

/-- 20-byte node identifier (`ya_client_model::NodeId`), byte-wise equality. -/
abbrev NodeId := List Nat

/-- 16-byte session identifier. -/
abbrev SessionId := List Nat

/-- Opaque socket address. -/
abbrev Addr := Nat

/-- Transport protocol of an endpoint (`proto::Protocol`). -/
inductive Protocol where
  | udp
  | tcp
deriving DecidableEq

/-- `ya_relay_core::session::Endpoint`. -/
structure Endpoint where
  protocol : Protocol
  address : Addr
deriving DecidableEq

/-- `ya_relay_core::session::NodeInfo`. -/
structure NodeInfo where
  node_id : NodeId
  public_key : Bytes
  slot : Nat
  endpoints : List Endpoint
deriving DecidableEq

/-- `ya_relay_core::session::NodeSession`. `last_seen` is a wall-clock
timestamp in seconds (`chrono::DateTime<Utc>` in the source). The
`forwarding_limiter` field is the external `governor` rate limiter; its
decisions are passed to `forward` as an explicit `RateCheck` argument, so
the field itself is not part of the data model. -/
structure NodeSession where
  info : NodeInfo
  session : SessionId
  last_seen : Nat
deriving DecidableEq

/-- Internal error taxonomy (`crate::error`, spec §7), restricted to the
variants the embedded code constructs. -/
inductive ServerError where
  | badRequestNoSessionId
  | badRequestInvalidPacket (id : SessionId) (expected : String)
  | badRequestInvalidNodeId
  | badRequestInvalidChallenge (msg : String)
  | unauthorizedInvalidSessionId (raw : Bytes)
  | unauthorizedSessionNotFound (id : SessionId)
  | unauthorizedInvalidChallenge
  | notFoundNode (id : NodeId)
  | notFoundNodeBySlot (slot : Nat)
  | timeoutPing
  | internalSend
  | internalGettingSessionInfo
deriving DecidableEq

/-- On-wire `proto::StatusCode`. -/
inductive StatusCode where
  | ok
  | undefined
  | badRequest
  | unauthorized
  | notFound
  | timeout
  | conflict
  | payloadTooLarge
  | tooManyRequests
  | serverError
  | gatewayTimeout
deriving DecidableEq

/-- `Server::error_response` status mapping (server.rs, the `match error`
grouping internal error kinds into protocol status codes). -/
def error_status : ServerError → StatusCode
  | .badRequestNoSessionId => .badRequest
  | .badRequestInvalidPacket _ _ => .badRequest
  | .badRequestInvalidNodeId => .badRequest
  | .badRequestInvalidChallenge _ => .badRequest
  | .unauthorizedInvalidSessionId _ => .unauthorized
  | .unauthorizedSessionNotFound _ => .unauthorized
  | .unauthorizedInvalidChallenge => .unauthorized
  | .notFoundNode _ => .notFound
  | .notFoundNodeBySlot _ => .notFound
  | .timeoutPing => .timeout
  | .internalSend => .serverError
  | .internalGettingSessionInfo => .serverError

/-- First-match association-list lookup, modelling `HashMap::get`. -/
def alookup [DecidableEq α] : List (α × β) → α → Option β
  | [], _ => none
  | (k, v) :: rest, a => if a = k then some v else alookup rest a

/-- Association-list insert modelling `HashMap::insert`: removes any
binding of the key and adds the new one. -/
def ainsert [DecidableEq α] (k : α) (v : β) : List (α × β) → List (α × β)
  | [] => [(k, v)]
  | (k0, v0) :: rest => if k0 = k then ainsert k v rest else (k0, v0) :: ainsert k v rest

/-- `NodesState` from `state.rs`: slot array plus the two indices
(`sessions : HashMap<SessionId, u32>`, `nodes : HashMap<NodeId, u32>`). -/
structure NodesState where
  slots : List (Option NodeSession)
  sessions : List (SessionId × Nat)
  nodes : List (NodeId × Nat)
deriving DecidableEq

/-- The occupied entry stored at slot `i`, if any
(`self.slots.get(i).cloned().flatten()`). -/
def slotEntry (st : NodesState) (i : Nat) : Option NodeSession :=
  (st.slots[i]?).join

/-- `self.slots.iter().position(|slot| slot.is_none())`. -/
def firstNoneIdx : List (Option NodeSession) → Option Nat
  | [] => none
  | none :: _ => some 0
  | some _ :: rest => (firstNoneIdx rest).map (· + 1)

/-- `NodesState::empty_slot`. -/
def empty_slot (st : NodesState) : Nat :=
  match firstNoneIdx st.slots with
  | none => st.slots.length
  | some idx => idx

/-- `NodesState::register`. The slot array grows by 1024 entries when no
slot is free (`resize(len + 1024, None)`); the stored node's `info.slot`
is set to the assigned slot. -/
def register (st : NodesState) (node : NodeSession) : NodesState :=
  let slot := empty_slot st
  let slots0 := if st.slots.length ≤ slot then st.slots ++ List.replicate 1024 none else st.slots
  let node1 := { node with info := { node.info with slot := slot } }
  { slots := slots0.set slot (some node1)
    sessions := ainsert node.session slot st.sessions
    nodes := ainsert node.info.node_id slot st.nodes }

/-- Number of occupied slots. -/
def live (st : NodesState) : Nat :=
  st.slots.countP (fun o => o.isSome)

/-- Structural helper for popcount: sums the lowest `fuel` binary
digits of `m`. -/
def countOnesAux : Nat → Nat → Nat
  | 0, _ => 0
  | fuel + 1, m => m % 2 + countOnesAux fuel (m / 2)

/-- `count_ones` (popcount). `n` itself bounds its bit length
(`n < 2 ^ n`), so the fuel never runs out. -/
def countOnes (n : Nat) : Nat := countOnesAux n n

/-- `state.rs::hamming_distance`: popcount of the byte-wise XOR over the
two 20-byte node ids. -/
def hamming_distance (id1 id2 : NodeId) : Nat :=
  (List.zipWith (fun a b => countOnes (a ^^^ b)) id1 id2).sum

/-- `NodesState::update_seen`, with the current wall-clock instant passed
explicitly (`Utc::now()` in the source). Returns the `Result` together
with the registry after the call (`&mut self`). -/
def update_seen (st : NodesState) (id : SessionId) (now : Nat) :
    Except ServerError Unit × NodesState :=
  match alookup st.sessions id with
  | none => (.error (.unauthorizedSessionNotFound id), st)
  | some slot =>
    match st.slots[slot]? with
    | some (some node) =>
      (.ok (), { st with slots := st.slots.set slot (some { node with last_seen := now }) })
    | _ => (.error .internalGettingSessionInfo, st)

/-- `NodesState::get_by_slot`. -/
def get_by_slot (st : NodesState) (slot : Nat) : Option NodeSession :=
  slotEntry st slot

/-- `NodesState::get_by_session`. -/
def get_by_session (st : NodesState) (id : SessionId) : Option NodeSession :=
  match alookup st.sessions id with
  | none => none
  | some slot => slotEntry st slot

/-- `NodesState::get_by_node_id`. -/
def get_by_node_id (st : NodesState) (id : NodeId) : Option NodeSession :=
  match alookup st.nodes id with
  | none => none
  | some slot => slotEntry st slot

/-- Comparison used to sort `(slot index, node id)` pairs in
`NodesState::neighbours`. The source applies itertools' stable
`sorted_by` comparing only the Hamming distances to the slot-ascending
`enumerate()` stream; a stable sort by the distance of a slot-ascending
input is exactly a sort by the lexicographic key
`(hamming distance, slot index)`, which is the order spelled out here. -/
def nbLE (ref : NodeId) (a b : Nat × NodeId) : Prop :=
  hamming_distance a.2 ref < hamming_distance b.2 ref ∨
    (hamming_distance a.2 ref = hamming_distance b.2 ref ∧ a.1 ≤ b.1)

instance (ref : NodeId) : DecidableRel (nbLE ref) := fun _ _ => by
  unfold nbLE; infer_instance

instance (ref : NodeId) : IsTotal (Nat × NodeId) (nbLE ref) := by
  constructor
  intro a b
  unfold nbLE
  omega

instance (ref : NodeId) : IsTrans (Nat × NodeId) (nbLE ref) := by
  constructor
  intro a b c hab hbc
  unfold nbLE at hab hbc ⊢
  omega

/-- The `(slot index, node id)` pairs of all occupied slots, in slot
order (`slots.iter().enumerate().filter_map(...)` in the source). -/
def occupiedPairs (st : NodesState) : List (Nat × NodeId) :=
  st.slots.enum.filterMap (fun p => p.2.map (fun e => (p.1, e.info.node_id)))

/-- `NodesState::neighbours`. The direct `self.slots[slot]` index of the
source (in range whenever the registry invariants hold) is modelled with
the total `slotEntry`, surfacing the out-of-range case as the same
`GettingSessionInfo` error as an unexpectedly free slot. -/
def neighbours (st : NodesState) (id : SessionId) (count : Nat) :
    Except ServerError (List NodeSession) :=
  match alookup st.sessions id with
  | none => .error (.unauthorizedSessionNotFound id)
  | some slot =>
    match slotEntry st slot with
    | none => .error .internalGettingSessionInfo
    | some refNode =>
      let ref := refNode.info.node_id
      let sortedPairs := List.insertionSort (nbLE ref) (occupiedPairs st)
      let idxs := sortedPairs.map Prod.fst
      let cnt := min (idxs.length - 1) count
      .ok (((idxs.drop 1).take cnt).filterMap (fun s => slotEntry st s))

/-! ## Server state, wire frames and the forwarding plane (`server.rs`) -/

/-- `proto::Forward` frame: 16-byte session id, destination slot, flags
and opaque payload. -/
structure Fwd where
  session_id : SessionId
  slot : Nat
  flags : Nat
  payload : Bytes
deriving DecidableEq

/-- `proto::Control` variants the server emits. -/
inductive Control where
  | pauseForwarding (slot : Nat)
  | resumeForwarding (slot : Nat)
deriving DecidableEq

/-- `proto::response::Node` (the directory response body). -/
structure NodeResponse where
  node_id : Bytes
  public_key : Bytes
  endpoints : List Endpoint
  seen_ts : Nat
  slot : Nat
deriving DecidableEq

/-- Response bodies the embedded handlers construct. -/
inductive ResponseKind where
  | node (n : NodeResponse)
  | session
  | pong
deriving DecidableEq

/-- A datagram handed to `send_to`, to be paired with a target address.
`err` is `proto::Packet::error` (a `Response` with empty kind carrying a
status code). -/
inductive OutPacket where
  | fwd (f : Fwd)
  | control (session_id : Bytes) (c : Control)
  | response (request_id : Nat) (session_id : Bytes) (code : StatusCode) (kind : ResponseKind)
  | err (request_id : Nat) (session_id : Bytes) (code : StatusCode)
deriving DecidableEq

/-- Outcome of `forwarding_limiter.check_n(payload.len())`, the
`governor` token-bucket call (external crate; passed as an oracle). The
`QuantaInstant` of `retry_at.earliest_possible()` is a `Nat` instant. -/
inductive RateCheck where
  | ok
  | insufficientCapacity (cells : Nat)
  | batchNonConforming (cells : Nat) (retry_at : Nat)
deriving DecidableEq

/-- Ordered insert into the resume queue, modelling
`BTreeSet::insert` on `(QuantaInstant, SessionId, SocketAddr)`. Set
semantics (no duplicates) and ordering by the primary `resume_at` key
are preserved; the ordering among entries with the same instant is
irrelevant to the sweep, which only partitions by `resume_at`. -/
def rqInsertSorted (x : Nat × SessionId × Addr) :
    List (Nat × SessionId × Addr) → List (Nat × SessionId × Addr)
  | [] => [x]
  | y :: rest => if x.1 ≤ y.1 then x :: y :: rest else y :: rqInsertSorted x rest

/-- `BTreeSet::insert`: no-op when the element is already present. -/
def rqInsert (x : Nat × SessionId × Addr) (q : List (Nat × SessionId × Addr)) :
    List (Nat × SessionId × Addr) :=
  if x ∈ q then q else rqInsertSorted x q

/-- `ServerState` (server.rs): registry, pending handshakes and resume
queue. The pending map's values are per-session mpsc senders (pure
concurrency plumbing), so the map is modelled by its key set. -/
structure ServerState where
  nodes : NodesState
  starting_session : List SessionId
  resume_forwarding : List (Nat × SessionId × Addr)
deriving DecidableEq

/-- `Server::forward` (server.rs lines 134-220). Returns the `Result`,
the server state after the call and the list of datagrams passed to
`send_to`, in order. `rate` is the outcome of the source's
`check_n` call on the resolved source session's limiter. -/
def forward (rate : RateCheck) (st : ServerState) (packet : Fwd) (froma : Addr) :
    Except ServerError Unit × ServerState × List (OutPacket × Addr) :=
  match get_by_session st.nodes packet.session_id with
  | none => (.error (.unauthorizedSessionNotFound packet.session_id), st, [])
  | some src_node =>
    match get_by_slot st.nodes packet.slot with
    | none => (.error (.notFoundNodeBySlot packet.slot), st, [])
    | some dest_node =>
      match rate with
      | .insufficientCapacity _ =>
        -- log warn, drop silently
        (.ok (), st, [])
      | .batchNonConforming _ retry_at =>
        (.ok (),
         { st with resume_forwarding :=
             rqInsert (retry_at, packet.session_id, froma) st.resume_forwarding },
         [(.control packet.session_id (.pauseForwarding packet.slot), froma)])
      | .ok =>
        match dest_node.info.endpoints with
        | [] =>
          -- log info: destination has no public address; drop
          (.ok (), st, [])
        | endpoint :: _ =>
          (.ok (), st,
           [(.fwd { packet with
                      slot := src_node.info.slot
                      session_id := src_node.session },
             endpoint.address)])

/-- Modelled from the spec: `PacketKind::request_id` of the wire codec
(crate `ya-relay-proto`, not under `src/`). Per §6 the `Forward` frame is
`{ session_id, slot, flags, payload }` — it carries no `request_id`
field — and §4.5/§7 emit an error `Response` only for a failing request
that carried a `request_id`; hence for a `Forward` frame the accessor
yields `none`. -/
def forward_request_id (_f : Fwd) : Option Nat := none

/-- One iteration of `Server::run` for an incoming `Forward` frame:
`dispatch` (which first fires `update_seen` for the non-empty session id
and ignores its result, then runs `Server::forward`), followed by the
error-response step guarded by `PacketKind::request_id`. -/
def run_step_forward (now : Nat) (rate : RateCheck) (st : ServerState)
    (f : Fwd) (froma : Addr) :
    Except ServerError Unit × ServerState × List (OutPacket × Addr) :=
  let st1 := { st with nodes := (update_seen st.nodes f.session_id now).2 }
  match forward rate st1 f froma with
  | (.ok u, st2, sends) => (.ok u, st2, sends)
  | (.error e, st2, sends) =>
    match forward_request_id f with
    | some rid => (.error e, st2, sends ++ [(.err rid f.session_id (error_status e), froma)])
    | none => (.error e, st2, sends)

/-- `Server::check_resume_forwarding` (server.rs lines 665-702), with the
current `QuantaInstant` passed explicitly. The source iterates the
`BTreeSet` in ascending order, breaks at the first entry with
`resume_at > now` and removes each visited entry; on a queue sorted by
`resume_at` that is `takeWhile`/`dropWhile`. A `ResumeForwarding` with
the session's own slot goes to each removed entry whose session still
exists. -/
def check_resume_forwarding (now : Nat) (st : ServerState) :
    ServerState × List (OutPacket × Addr) :=
  let ready := st.resume_forwarding.takeWhile (fun e => decide (e.1 ≤ now))
  let rest := st.resume_forwarding.dropWhile (fun e => decide (e.1 ≤ now))
  let to_resume := ready.filterMap
    (fun e => (get_by_session st.nodes e.2.1).map (fun ns => (ns, e.2.1, e.2.2)))
  ({ st with resume_forwarding := rest },
   to_resume.map (fun t => (OutPacket.control t.2.1 (.resumeForwarding t.1.info.slot), t.2.2)))

/-- `to_node_response` (server.rs lines 817-835). `seen_ts` is
`last_seen.timestamp() as u32`, i.e. the stored timestamp reduced mod
2^32. -/
def to_node_response (node_info : NodeSession) (public_key : Bool) : NodeResponse :=
  { node_id := node_info.info.node_id
    public_key := if public_key then node_info.info.public_key else []
    endpoints := node_info.info.endpoints
    seen_ts := node_info.last_seen % 2 ^ 32
    slot := node_info.info.slot }

/-! ## Challenge engine (`challenge.rs`) -/

/-- `PREFIX_SIZE = size_of::<u64>()`. -/
def PREFIX_SIZE : Nat := 8

/-- `SIGNATURE_SIZE = size_of::<ethsign::Signature>()` = 1 + 32 + 32. -/
def SIGNATURE_SIZE : Nat := 65

/-- `CHALLENGE_DIFFICULTY` (server.rs). -/
def CHALLENGE_DIFFICULTY : Nat := 16

/-- `u32::MAX`, the "unassigned" slot sentinel. -/
def U32_MAX : Nat := 2 ^ 32 - 1

/-- `u64::to_be_bytes` of the solution counter. -/
def toBeBytes (n : Nat) : Bytes :=
  [n / 2 ^ 56 % 256, n / 2 ^ 48 % 256, n / 2 ^ 40 % 256, n / 2 ^ 32 % 256,
   n / 2 ^ 24 % 256, n / 2 ^ 16 % 256, n / 2 ^ 8 % 256, n % 256]

/-- `u8::leading_zeros` of a byte value, by explicit thresholds. -/
def u8LeadingZeros (b : Nat) : Nat :=
  if 128 ≤ b then 0
  else if 64 ≤ b then 1
  else if 32 ≤ b then 2
  else if 16 ≤ b then 3
  else if 8 ≤ b then 4
  else if 4 ≤ b then 5
  else if 2 ≤ b then 6
  else if 1 ≤ b then 7
  else 8

/-- `challenge.rs::leading_zeros`: 8 per leading zero byte, plus the
leading zero bits of the first nonzero byte. -/
def leading_zeros : Bytes → Nat
  | [] => 0
  | b :: rest => if b = 0 then 8 + leading_zeros rest else u8LeadingZeros b

/-- Search loop of `solve_challenge::<D>`. The source increments a `u64`
counter until a digest with enough leading zero bits appears (bailing on
counter overflow); the remaining number of counter values is the fuel.
`dgst pfx c` is `D::digest(pfx || c)`, the `D: Digest` type parameter of
the source made explicit. -/
def solve_challenge_aux (dgst : Bytes → Bytes → Bytes) (challenge : Bytes)
    (difficulty : Nat) : Nat → Nat → Option Bytes
  | 0, _ => none
  | fuel + 1, counter =>
    let pfx := toBeBytes counter
    let result := dgst pfx challenge
    if difficulty ≤ leading_zeros result then
      some (pfx ++ result)
    else
      solve_challenge_aux dgst challenge difficulty fuel (counter + 1)

/-- `challenge.rs::solve_challenge::<D>`. -/
def solve_challenge (dgst : Bytes → Bytes → Bytes) (challenge : Bytes)
    (difficulty : Nat) (fuel : Nat) : Option Bytes :=
  solve_challenge_aux dgst challenge difficulty fuel 0

/-- `challenge.rs::verify_challenge::<D>`. -/
def verify_challenge (dgst : Bytes → Bytes → Bytes) (challenge : Bytes)
    (difficulty : Nat) (response : Bytes) : Except String Bool :=
  if response.length < PREFIX_SIZE then
    .error "Invalid response size"
  else
    let pfx := response.take PREFIX_SIZE
    let to_verify := response.drop PREFIX_SIZE
    let expected := dgst pfx challenge
    .ok (decide (expected = to_verify) && decide (difficulty ≤ leading_zeros expected))

/-- `challenge.rs::verify_signature`. `recover v r s msg` is
`ethsign::Signature { v, r, s }.recover(msg)` and `sha256` is
`sha2::Sha256::digest`, both external crypto made explicit. Returns the
embedded solution on success. -/
def verify_signature (recover : Nat → Bytes → Bytes → Bytes → Option Bytes)
    (sha256 : Bytes → Bytes) (response : Bytes) (pub_key : Bytes) :
    Except String Bytes :=
  if response.length < SIGNATURE_SIZE then
    .error "Signature too short"
  else
    let sig := response.take SIGNATURE_SIZE
    let embedded := response.drop SIGNATURE_SIZE
    let v := sig.headD 0
    let r := (sig.drop 1).take 32
    let s := sig.drop 33
    let message := sha256 embedded
    match recover v r s message with
    | none => .error "Recovery failed"
    | some recovered_key =>
      if pub_key = recovered_key then .ok embedded else .error "Invalid public key"

/-- `challenge.rs::verify`: signature check, then the proof-of-work
check over the embedded solution. -/
def challenge_verify (recover : Nat → Bytes → Bytes → Bytes → Option Bytes)
    (sha256 : Bytes → Bytes) (dgst : Bytes → Bytes → Bytes)
    (challenge : Bytes) (difficulty : Nat) (response : Bytes) (pub_key : Bytes) :
    Except String Bool :=
  match verify_signature recover sha256 response pub_key with
  | .error e => .error e
  | .ok inner => verify_challenge dgst challenge difficulty inner

/-- The claim "the signature carried by `response` recovers to the
declared `pub_key`", spelled over the same field layout `verify_signature`
uses (`v = sig[0]`, `r = sig[1..33]`, `s = sig[33..65]`, message =
SHA-256 of the remainder). -/
def signature_matches (recover : Nat → Bytes → Bytes → Bytes → Option Bytes)
    (sha256 : Bytes → Bytes) (response : Bytes) (pub_key : Bytes) : Prop :=
  recover ((response.take SIGNATURE_SIZE).headD 0)
      (((response.take SIGNATURE_SIZE).drop 1).take 32)
      ((response.take SIGNATURE_SIZE).drop 33)
      (sha256 (response.drop SIGNATURE_SIZE))
    = some pub_key

/-! ## Session initialization (`server.rs::init_session`) -/

/-- Body of `proto::request::Session`. -/
structure SessionRequest where
  challenge_resp : Bytes
  node_id : Bytes
  public_key : Bytes
deriving DecidableEq

/-- The challenge-validation stage of `Server::init_session`
(server.rs lines 529-572): a pending session awaiting its challenge
response receives `Request{Session}`. A `verify` error surfaces as
`BadRequest::InvalidChallenge`, a failed proof-of-work as
`Unauthorized::InvalidChallenge`; then the node id length is checked and
the session's `NodeSession` is built (slot `u32::MAX`, no endpoints). -/
def init_session_on_session_request (recover : Nat → Bytes → Bytes → Bytes → Option Bytes)
    (sha256 : Bytes → Bytes) (dgst : Bytes → Bytes → Bytes)
    (raw_challenge : Bytes) (session_id : SessionId) (now : Nat)
    (s : SessionRequest) : Except ServerError NodeSession :=
  match challenge_verify recover sha256 dgst raw_challenge CHALLENGE_DIFFICULTY
      s.challenge_resp s.public_key with
  | .error e => .error (.badRequestInvalidChallenge e)
  | .ok false => .error .unauthorizedInvalidChallenge
  | .ok true =>
    if s.node_id.length ≠ 20 then
      .error .badRequestInvalidNodeId
    else
      .ok { info := { node_id := s.node_id
                      public_key := s.public_key
                      slot := U32_MAX
                      endpoints := [] }
            session := session_id
            last_seen := now }

/-- The fate of a pending session whose challenge response arrives: on
success `Response{Session, Ok}` is sent and the pending entry stays (it
is removed later, on `Register`); on failure the spawning task in
`Server::new_session` sends `Packet::error` with the mapped status code
and `cleanup_initialization` removes the pending entry
(`starting_session.remove`). -/
def session_stage_result (recover : Nat → Bytes → Bytes → Bytes → Option Bytes)
    (sha256 : Bytes → Bytes) (dgst : Bytes → Bytes → Bytes)
    (st : ServerState) (request_id : Nat) (witha : Addr)
    (raw_challenge : Bytes) (session_id : SessionId) (now : Nat)
    (s : SessionRequest) :
    ServerState × List (OutPacket × Addr) × Except ServerError NodeSession :=
  match init_session_on_session_request recover sha256 dgst raw_challenge session_id now s with
  | .error e =>
    ({ st with starting_session := st.starting_session.filter (fun x => decide (x ≠ session_id)) },
     [(.err request_id session_id (error_status e), witha)],
     .error e)
  | .ok node =>
    (st, [(.response request_id session_id .ok .session, witha)], .ok node)

/-! ## Registry invariants (spec §3) -/

/-- The documented invariants of `NodesState`: each index maps a key to a
slot exactly when that slot holds a matching session (law 3 of §3, for
both indices — law 1 follows), every occupied slot's stored `info.slot`
equals its index (law 2), and node ids are proper 20-byte strings. -/
structure RegInv (st : NodesState) : Prop where
  session_iff : ∀ s i, alookup st.sessions s = some i ↔
    ∃ e, slotEntry st i = some e ∧ e.session = s
  node_iff : ∀ n i, alookup st.nodes n = some i ↔
    ∃ e, slotEntry st i = some e ∧ e.info.node_id = n
  slot_eq : ∀ i e, slotEntry st i = some e → e.info.slot = i
  id_len : ∀ i e, slotEntry st i = some e → e.info.node_id.length = 20

/-! ## A concrete registry used by the witnesses -/

/-- A concrete 20-byte node id. -/
def exNodeId : NodeId := List.replicate 20 0

/-- A concrete session id. -/
def exSessionId : SessionId := List.replicate 16 0

/-- A registered session occupying slot 0. -/
def exNode : NodeSession :=
  { info := { node_id := exNodeId, public_key := [1, 2], slot := 0, endpoints := [] }
    session := exSessionId
    last_seen := 7 }

/-- A one-entry registry: `exNode` in slot 0, both indices pointing at
it. -/
def exState : NodesState :=
  { slots := [some exNode]
    sessions := [(exSessionId, 0)]
    nodes := [(exNodeId, 0)] }

theorem exState_inv : RegInv exState := by
  constructor
  · intro s i
    constructor
    · intro h
      refine ⟨exNode, ?_, ?_⟩
      · have hi : i = 0 := by
          by_cases hs : s = exSessionId
          · simp [exState, alookup, hs] at h
            omega
          · simp [exState, alookup, hs] at h
        subst hi
        decide
      · by_cases hs : s = exSessionId
        · simp [exNode, hs]
        · simp [exState, alookup, hs] at h
    · rintro ⟨e, he, hs⟩
      have hi : i = 0 := by
        match i, he with
        | 0, _ => rfl
        | n + 1, he => simp [exState, slotEntry] at he
      subst hi
      have he0 : exNode = e := by
        simpa [exState, slotEntry, Option.join] using he
      cases he0
      subst hs
      decide
  · intro n i
    constructor
    · intro h
      refine ⟨exNode, ?_, ?_⟩
      · have hi : i = 0 := by
          by_cases hn : n = exNodeId
          · simp [exState, alookup, hn] at h
            omega
          · simp [exState, alookup, hn] at h
        subst hi
        decide
      · by_cases hn : n = exNodeId
        · simp [exNode, hn]
        · simp [exState, alookup, hn] at h
    · rintro ⟨e, he, hn⟩
      have hi : i = 0 := by
        match i, he with
        | 0, _ => rfl
        | m + 1, he => simp [exState, slotEntry] at he
      subst hi
      have he0 : exNode = e := by
        simpa [exState, slotEntry, Option.join] using he
      cases he0
      subst hn
      decide
  · intro i e he
    match i, he with
    | 0, he =>
      have he0 : exNode = e := by
        simpa [exState, slotEntry, Option.join] using he
      cases he0
      rfl
    | n + 1, he => simp [exState, slotEntry] at he
  · intro i e he
    match i, he with
    | 0, he =>
      have he0 : exNode = e := by
        simpa [exState, slotEntry, Option.join] using he
      cases he0
      rfl
    | n + 1, he => simp [exState, slotEntry] at he

/-! ## Support lemmas -/

theorem alookup_ainsert_self [DecidableEq α] (k : α) (v : β) :
    ∀ m : List (α × β), alookup (ainsert k v m) k = some v := by
  intro m
  induction m with
  | nil => simp [ainsert, alookup]
  | cons p rest ih =>
    obtain ⟨k0, v0⟩ := p
    by_cases h : k0 = k
    · simpa [ainsert, h] using ih
    · simp [ainsert, alookup, h, Ne.symm h, ih]

theorem mem_rqInsertSorted_self (x : Nat × SessionId × Addr) :
    ∀ q, x ∈ rqInsertSorted x q := by
  intro q
  induction q with
  | nil => simp [rqInsertSorted]
  | cons y rest ih =>
    by_cases h : x.1 ≤ y.1
    · simp [rqInsertSorted, h]
    · simp only [rqInsertSorted, if_neg h, List.mem_cons]
      exact Or.inr ih

theorem mem_rqInsert_self (x : Nat × SessionId × Addr) (q : List (Nat × SessionId × Addr)) :
    x ∈ rqInsert x q := by
  unfold rqInsert
  split
  · assumption
  · exact mem_rqInsertSorted_self x q

theorem join_eq_some {o : Option (Option α)} {a : α} :
    o.join = some a ↔ o = some (some a) := by
  cases o with
  | none => simp
  | some o1 => cases o1 <;> simp

theorem getElem?_set_self_of_lt (l : List α) (i : Nat) (a : α) (h : i < l.length) :
    (l.set i a)[i]? = some a := by
  induction l generalizing i with
  | nil => simp at h
  | cons x t ih =>
    cases i with
    | zero => simp
    | succ j =>
      simp only [List.set_cons_succ, List.getElem?_cons_succ]
      exact ih j (by simpa using h)

theorem getElem?_set_of_ne (l : List α) (i j : Nat) (a : α) (h : j ≠ i) :
    (l.set i a)[j]? = l[j]? := by
  induction l generalizing i j with
  | nil => simp
  | cons x t ih =>
    cases i with
    | zero =>
      cases j with
      | zero => exact absurd rfl h
      | succ j1 => simp
    | succ i1 =>
      cases j with
      | zero => simp
      | succ j1 =>
        simp only [List.set_cons_succ, List.getElem?_cons_succ]
        exact ih i1 j1 (fun hc => h (by simpa using congrArg Nat.succ hc))

/-! ## C10 — directory response and the public-key flag -/

/-- C10: the directory response built with the `public_key` flag false
carries an empty `public_key` and is independent of the stored public key
(two sessions differing only in the stored key yield identical
responses); with the flag true it carries exactly the stored key; in both
cases `node_id`, `endpoints`, `slot` and `seen_ts` come from the stored
session. -/
theorem to_node_response_spec (n m : NodeSession)
    (h : m = { n with info := { n.info with public_key := m.info.public_key } }) :
    to_node_response n false = to_node_response m false ∧
    (to_node_response n false).public_key = [] ∧
    (to_node_response n true).public_key = n.info.public_key ∧
    ∀ b : Bool,
      (to_node_response n b).node_id = n.info.node_id ∧
      (to_node_response n b).endpoints = n.info.endpoints ∧
      (to_node_response n b).slot = n.info.slot ∧
      (to_node_response n b).seen_ts = n.last_seen % 2 ^ 32 := by
  refine ⟨?_, rfl, rfl, fun b => ⟨rfl, rfl, rfl, rfl⟩⟩
  rw [h]
  rfl

theorem to_node_response_spec_witness :
    to_node_response exNode false =
      to_node_response { exNode with
        info := { exNode.info with public_key := [9, 9] } } false ∧
    (to_node_response exNode false).public_key = [] ∧
    (to_node_response exNode true).public_key = exNode.info.public_key ∧
    ∀ b : Bool,
      (to_node_response exNode b).node_id = exNode.info.node_id ∧
      (to_node_response exNode b).endpoints = exNode.info.endpoints ∧
      (to_node_response exNode b).slot = exNode.info.slot ∧
      (to_node_response exNode b).seen_ts = exNode.last_seen % 2 ^ 32 :=
  to_node_response_spec exNode
    { exNode with info := { exNode.info with public_key := [9, 9] } } rfl

/-! ## C5 — a found proof-of-work solution verifies -/

theorem solve_aux_verifies (dgst : Bytes → Bytes → Bytes) (challenge : Bytes)
    (difficulty : Nat) (sol : Bytes) :
    ∀ fuel counter,
      solve_challenge_aux dgst challenge difficulty fuel counter = some sol →
      verify_challenge dgst challenge difficulty sol = .ok true := by
  intro fuel
  induction fuel with
  | zero => intro counter h; simp [solve_challenge_aux] at h
  | succ f ih =>
    intro counter h
    by_cases hc : difficulty ≤ leading_zeros (dgst (toBeBytes counter) challenge)
    · simp only [solve_challenge_aux, if_pos hc, Option.some.injEq] at h
      subst h
      have hlen : (toBeBytes counter).length = PREFIX_SIZE := rfl
      have hge : PREFIX_SIZE ≤
          (toBeBytes counter ++ dgst (toBeBytes counter) challenge).length := by
        rw [List.length_append, hlen]
        omega
      unfold verify_challenge
      rw [if_neg (by omega)]
      rw [List.take_left' hlen, List.drop_left' hlen]
      simp [hc]
    · simp only [solve_challenge_aux, if_neg hc] at h
      exact ih (counter + 1) h

/-- C5: for every challenge and difficulty at most 20, a solution found
by `solve_challenge` passes `verify_challenge`. -/
theorem solve_challenge_verifies (dgst : Bytes → Bytes → Bytes) (challenge : Bytes)
    (difficulty fuel : Nat) (sol : Bytes) (_hd : difficulty ≤ 20)
    (h : solve_challenge dgst challenge difficulty fuel = some sol) :
    verify_challenge dgst challenge difficulty sol = .ok true :=
  solve_aux_verifies dgst challenge difficulty sol fuel 0 h

theorem solve_challenge_verifies_witness :
    (5 ≤ 20 ∧
      solve_challenge (fun _ _ => [0, 255]) [3] 5 1 = some [0, 0, 0, 0, 0, 0, 0, 0, 0, 255]) ∧
    verify_challenge (fun _ _ => [0, 255]) [3] 5 [0, 0, 0, 0, 0, 0, 0, 0, 0, 255] = .ok true :=
  ⟨⟨by decide, by decide⟩,
    solve_challenge_verifies (fun _ _ => [0, 255]) [3] 5 1
      [0, 0, 0, 0, 0, 0, 0, 0, 0, 255] (by decide) (by decide)⟩

/-! ## C4 and C6 — the forwarding plane -/

/-- A second 20-byte node id. -/
def exNodeId2 : NodeId := 1 :: List.replicate 19 0

/-- A second session id. -/
def exSessionId2 : SessionId := 1 :: List.replicate 15 0

/-- A registered session occupying slot 1, with one public endpoint. -/
def exNode2 : NodeSession :=
  { info := { node_id := exNodeId2, public_key := [3]
              slot := 1, endpoints := [{ protocol := .udp, address := 42 }] }
    session := exSessionId2
    last_seen := 8 }

/-- A two-entry registry: `exNode` in slot 0, `exNode2` in slot 1. -/
def exState2 : NodesState :=
  { slots := [some exNode, some exNode2]
    sessions := [(exSessionId, 0), (exSessionId2, 1)]
    nodes := [(exNodeId, 0), (exNodeId2, 1)] }

/-- A server state over `exState2` with no pending sessions and an empty
resume queue. -/
def exServer : ServerState :=
  { nodes := exState2, starting_session := [], resume_forwarding := [] }

/-- C4: when the source session and destination slot resolve, the rate
check passes and the destination has endpoints, exactly one Forward is
emitted, to the first endpoint's address, with the slot rewritten to the
source's slot, the session id rewritten to the source's session id, and
the payload (and flags) unchanged. -/
theorem forward_ok_spec (st : ServerState) (p : Fwd) (froma : Addr)
    (src dst : NodeSession) (e0 : Endpoint) (es : List Endpoint)
    (hsrc : get_by_session st.nodes p.session_id = some src)
    (hdst : get_by_slot st.nodes p.slot = some dst)
    (hend : dst.info.endpoints = e0 :: es) :
    forward .ok st p froma =
      (.ok (), st,
       [(.fwd { session_id := src.session, slot := src.info.slot,
                flags := p.flags, payload := p.payload }, e0.address)]) := by
  unfold forward
  rw [hsrc, hdst]
  simp only [hend]

theorem forward_ok_spec_witness :
    forward .ok exServer { session_id := exSessionId, slot := 1, flags := 0, payload := [5, 6] } 99 =
      (.ok (), exServer,
       [(.fwd { session_id := exSessionId, slot := 0, flags := 0, payload := [5, 6] }, 42)]) :=
  forward_ok_spec exServer
    { session_id := exSessionId, slot := 1, flags := 0, payload := [5, 6] } 99
    exNode exNode2 { protocol := .udp, address := 42 } [] (by decide) (by decide) (by decide)

/-- C6: when the rate check fails with `BatchNonConforming(cells,
retry_at)`, the triple `(retry_at, session_id, from)` is inserted into
the resume queue, a `Control{PauseForwarding}` carrying the requested
destination slot goes back to `from`, and no Forward is emitted. -/
theorem forward_rate_limited_spec (st : ServerState) (p : Fwd) (froma : Addr)
    (src dst : NodeSession) (cells retry_at : Nat)
    (hsrc : get_by_session st.nodes p.session_id = some src)
    (hdst : get_by_slot st.nodes p.slot = some dst) :
    forward (.batchNonConforming cells retry_at) st p froma =
      (.ok (),
       { st with resume_forwarding :=
           rqInsert (retry_at, p.session_id, froma) st.resume_forwarding },
       [(.control p.session_id (.pauseForwarding p.slot), froma)]) ∧
    (retry_at, p.session_id, froma) ∈
      (forward (.batchNonConforming cells retry_at) st p froma).2.1.resume_forwarding := by
  constructor
  · unfold forward
    rw [hsrc, hdst]
  · unfold forward
    rw [hsrc, hdst]
    exact mem_rqInsert_self _ _

theorem forward_rate_limited_spec_witness :
    forward (.batchNonConforming 3000 77) exServer
        { session_id := exSessionId, slot := 1, flags := 0, payload := [5, 6] } 99 =
      (.ok (),
       { exServer with resume_forwarding := rqInsert (77, exSessionId, 99) [] },
       [(.control exSessionId (.pauseForwarding 1), 99)]) ∧
    (77, exSessionId, 99) ∈
      (forward (.batchNonConforming 3000 77) exServer
        { session_id := exSessionId, slot := 1, flags := 0, payload := [5, 6] } 99).2.1.resume_forwarding :=
  forward_rate_limited_spec exServer
    { session_id := exSessionId, slot := 1, flags := 0, payload := [5, 6] } 99
    exNode exNode2 3000 77 (by decide) (by decide)

/-! ## C7 — registration assigns the smallest free slot -/

theorem firstNoneIdx_lt_length : ∀ {l : List (Option NodeSession)} {i : Nat},
    firstNoneIdx l = some i → i < l.length := by
  intro l
  induction l with
  | nil => intro i h; simp [firstNoneIdx] at h
  | cons o rest ih =>
    intro i h
    cases o with
    | none =>
      simp only [firstNoneIdx, Option.some.injEq] at h
      subst h
      simp
    | some e =>
      simp only [firstNoneIdx] at h
      cases h0 : firstNoneIdx rest with
      | none => rw [h0] at h; simp at h
      | some j =>
        rw [h0] at h
        simp at h
        have := ih h0
        simp only [List.length_cons]
        omega

theorem firstNoneIdx_is_none : ∀ {l : List (Option NodeSession)} {i : Nat},
    firstNoneIdx l = some i → l[i]? = some none := by
  intro l
  induction l with
  | nil => intro i h; simp [firstNoneIdx] at h
  | cons o rest ih =>
    intro i h
    cases o with
    | none =>
      simp only [firstNoneIdx, Option.some.injEq] at h
      subst h
      simp
    | some e =>
      simp only [firstNoneIdx] at h
      cases h0 : firstNoneIdx rest with
      | none => rw [h0] at h; simp at h
      | some j =>
        rw [h0] at h
        simp at h
        subst h
        simpa using ih h0

theorem firstNoneIdx_earlier_occupied : ∀ {l : List (Option NodeSession)} {i : Nat},
    firstNoneIdx l = some i → ∀ j, j < i → ∃ e, l[j]? = some (some e) := by
  intro l
  induction l with
  | nil => intro i h; simp [firstNoneIdx] at h
  | cons o rest ih =>
    intro i h
    cases o with
    | none =>
      simp only [firstNoneIdx, Option.some.injEq] at h
      subst h
      intro j hj
      exact absurd hj (Nat.not_lt_zero j)
    | some e =>
      simp only [firstNoneIdx] at h
      cases h0 : firstNoneIdx rest with
      | none => rw [h0] at h; simp at h
      | some k =>
        rw [h0] at h
        simp at h
        subst h
        intro j hj
        cases j with
        | zero => exact ⟨e, by simp⟩
        | succ j1 =>
          obtain ⟨e1, he1⟩ := ih h0 j1 (by omega)
          exact ⟨e1, by simpa using he1⟩

theorem firstNoneIdx_none_all_occupied : ∀ {l : List (Option NodeSession)},
    firstNoneIdx l = none → ∀ j, j < l.length → ∃ e, l[j]? = some (some e) := by
  intro l
  induction l with
  | nil => intro _ j hj; simp at hj
  | cons o rest ih =>
    intro h
    cases o with
    | none => simp [firstNoneIdx] at h
    | some e =>
      simp only [firstNoneIdx] at h
      cases h0 : firstNoneIdx rest with
      | some j => rw [h0] at h; simp at h
      | none =>
        intro j hj
        cases j with
        | zero => exact ⟨e, by simp⟩
        | succ j1 =>
          obtain ⟨e1, he1⟩ := ih h0 j1 (by simpa using hj)
          exact ⟨e1, by simpa using he1⟩

/-- C7: registering a session whose session id and node id are not
yet present stores it at the smallest free slot index (extending the
slot array by 1024 entries when no slot is free), sets the stored
`info.slot` to that index, and points both indices at it. -/
theorem register_spec (st : NodesState) (n : NodeSession)
    (_hs : alookup st.sessions n.session = none)
    (_hn : alookup st.nodes n.info.node_id = none) :
    alookup (register st n).sessions n.session = some (empty_slot st) ∧
    alookup (register st n).nodes n.info.node_id = some (empty_slot st) ∧
    slotEntry (register st n) (empty_slot st) =
      some { n with info := { n.info with slot := empty_slot st } } ∧
    (∀ j, j < empty_slot st → ∃ e, slotEntry st j = some e) ∧
    (empty_slot st < st.slots.length → slotEntry st (empty_slot st) = none) ∧
    ((register st n).slots.length =
      if st.slots.length ≤ empty_slot st then st.slots.length + 1024
      else st.slots.length) := by
  refine ⟨?_, ?_, ?_, ?_, ?_, ?_⟩
  · exact alookup_ainsert_self n.session (empty_slot st) st.sessions
  · exact alookup_ainsert_self n.info.node_id (empty_slot st) st.nodes
  · have hlt : empty_slot st <
        (if st.slots.length ≤ empty_slot st
         then st.slots ++ List.replicate 1024 none
         else st.slots).length := by
      cases hidx : firstNoneIdx st.slots with
      | none =>
        simp only [empty_slot, hidx]
        rw [if_pos (le_refl _), List.length_append, List.length_replicate]
        omega
      | some i =>
        have hi := firstNoneIdx_lt_length hidx
        simp only [empty_slot, hidx]
        split
        · rw [List.length_append, List.length_replicate]
          omega
        · omega
    unfold slotEntry register
    rw [getElem?_set_self_of_lt _ _ _ hlt]
    rfl
  · intro j hj
    cases hidx : firstNoneIdx st.slots with
    | none =>
      simp only [empty_slot, hidx] at hj
      obtain ⟨e, he⟩ := firstNoneIdx_none_all_occupied hidx j hj
      refine ⟨e, ?_⟩
      unfold slotEntry
      rw [he]
      rfl
    | some i =>
      simp only [empty_slot, hidx] at hj
      obtain ⟨e, he⟩ := firstNoneIdx_earlier_occupied hidx j hj
      refine ⟨e, ?_⟩
      unfold slotEntry
      rw [he]
      rfl
  · intro hlt
    cases hidx : firstNoneIdx st.slots with
    | none => simp [empty_slot, hidx] at hlt
    | some i =>
      have h1 := firstNoneIdx_is_none hidx
      unfold slotEntry
      simp only [empty_slot, hidx]
      rw [h1]
      rfl
  · unfold register
    simp only [List.length_set]
    split
    · rw [List.length_append, List.length_replicate]
    · rfl

theorem register_spec_witness :
    alookup (register { slots := [], sessions := [], nodes := [] } exNode).sessions
        exNode.session = some 0 ∧
    alookup (register { slots := [], sessions := [], nodes := [] } exNode).nodes
        exNode.info.node_id = some 0 ∧
    slotEntry (register { slots := [], sessions := [], nodes := [] } exNode) 0 =
      some { exNode with info := { exNode.info with slot := 0 } } ∧
    (∀ j, j < (0 : Nat) → ∃ e, slotEntry { slots := [], sessions := [], nodes := [] } j = some e) ∧
    ((0 : Nat) < ([] : List (Option NodeSession)).length →
      slotEntry { slots := [], sessions := [], nodes := [] } 0 = none) ∧
    ((register { slots := [], sessions := [], nodes := [] } exNode).slots.length =
      if ([] : List (Option NodeSession)).length ≤ (0 : Nat) then
        ([] : List (Option NodeSession)).length + 1024
      else ([] : List (Option NodeSession)).length) :=
  register_spec { slots := [], sessions := [], nodes := [] } exNode rfl rfl

/-! ## C9 — liveness update touches exactly one timestamp -/

/-- C9: `update_seen` fails with `SessionNotFound` and leaves the whole
registry unchanged when the id is not registered; on a registered id (in
a registry satisfying the invariants) it sets that session's `last_seen`
to the given instant and changes nothing else: same indices, same other
slots, and the touched entry keeps its `info` and `session`. -/
theorem update_seen_spec (st : NodesState) (id : SessionId) (now : Nat)
    (hInv : RegInv st) :
    (alookup st.sessions id = none →
      update_seen st id now = (.error (.unauthorizedSessionNotFound id), st)) ∧
    ∀ i, alookup st.sessions id = some i →
      ∃ e, slotEntry st i = some e ∧ e.session = id ∧
        update_seen st id now =
          (.ok (), { st with slots := st.slots.set i (some { e with last_seen := now }) }) ∧
        (update_seen st id now).2.sessions = st.sessions ∧
        (update_seen st id now).2.nodes = st.nodes ∧
        ∀ j, j ≠ i → slotEntry (update_seen st id now).2 j = slotEntry st j := by
  constructor
  · intro h
    unfold update_seen
    rw [h]
  · intro i hi
    obtain ⟨e, he, hsess⟩ := (hInv.session_iff id i).mp hi
    have hmem : st.slots[i]? = some (some e) := by
      have := he
      unfold slotEntry at this
      exact join_eq_some.mp this
    have heq : update_seen st id now =
        (.ok (), { st with slots := st.slots.set i (some { e with last_seen := now }) }) := by
      unfold update_seen
      rw [hi]
      simp only [hmem]
    refine ⟨e, he, hsess, heq, ?_, ?_, ?_⟩
    · rw [heq]
    · rw [heq]
    · intro j hj
      rw [heq]
      unfold slotEntry
      simp only
      rw [getElem?_set_of_ne _ _ _ _ hj]

theorem update_seen_spec_witness :
    (alookup exState.sessions (List.replicate 16 3) = none →
      update_seen exState (List.replicate 16 3) 5 =
        (.error (.unauthorizedSessionNotFound (List.replicate 16 3)), exState)) ∧
    (∀ i, alookup exState.sessions (List.replicate 16 3) = some i →
      ∃ e, slotEntry exState i = some e ∧ e.session = List.replicate 16 3 ∧
        update_seen exState (List.replicate 16 3) 5 =
          (.ok (), { exState with
            slots := exState.slots.set i (some { e with last_seen := 5 }) }) ∧
        (update_seen exState (List.replicate 16 3) 5).2.sessions = exState.sessions ∧
        (update_seen exState (List.replicate 16 3) 5).2.nodes = exState.nodes ∧
        ∀ j, j ≠ i →
          slotEntry (update_seen exState (List.replicate 16 3) 5).2 j = slotEntry exState j) ∧
    update_seen exState (List.replicate 16 3) 5 =
      (.error (.unauthorizedSessionNotFound (List.replicate 16 3)), exState) := by
  have h := update_seen_spec exState (List.replicate 16 3) 5 exState_inv
  exact ⟨h.1, h.2, h.1 (by decide)⟩

/-! ## C2 — a challenge response whose signature does not recover -/

theorem verify_signature_fails (recover : Nat → Bytes → Bytes → Bytes → Option Bytes)
    (sha256 : Bytes → Bytes) (response pub_key : Bytes)
    (hsig : ¬ signature_matches recover sha256 response pub_key) :
    ∃ msg, verify_signature recover sha256 response pub_key = .error msg := by
  unfold verify_signature
  by_cases hlen : response.length < SIGNATURE_SIZE
  · exact ⟨"Signature too short", by rw [if_pos hlen]⟩
  · rw [if_neg hlen]
    dsimp only
    cases hr : recover ((response.take SIGNATURE_SIZE).headD 0)
        (((response.take SIGNATURE_SIZE).drop 1).take 32)
        ((response.take SIGNATURE_SIZE).drop 33)
        (sha256 (response.drop SIGNATURE_SIZE)) with
    | none => exact ⟨"Recovery failed", rfl⟩
    | some k =>
      by_cases hpk : pub_key = k
      · exact absurd (by rw [signature_matches, hr, hpk]) hsig
      · exact ⟨"Invalid public key", by simp [hpk]⟩

/-- C2 (amended): a pending handshake that receives a `Request{Session}`
whose challenge response carries a signature that does not recover to
the declared `public_key` gets an error response with `BadRequest`
status (the `verify` failure surfaces as `BadRequest::InvalidChallenge`,
not `Unauthorized`), and the pending entry is removed. -/
theorem session_stage_bad_signature (recover : Nat → Bytes → Bytes → Bytes → Option Bytes)
    (sha256 : Bytes → Bytes) (dgst : Bytes → Bytes → Bytes) (st : ServerState)
    (request_id : Nat) (witha : Addr) (raw_challenge : Bytes) (session_id : SessionId)
    (now : Nat) (s : SessionRequest)
    (hsig : ¬ signature_matches recover sha256 s.challenge_resp s.public_key) :
    ∃ msg,
      session_stage_result recover sha256 dgst st request_id witha raw_challenge
          session_id now s =
        ({ st with starting_session :=
             st.starting_session.filter (fun x => decide (x ≠ session_id)) },
         [(.err request_id session_id .badRequest, witha)],
         .error (.badRequestInvalidChallenge msg)) ∧
      session_id ∉ (session_stage_result recover sha256 dgst st request_id witha
          raw_challenge session_id now s).1.starting_session := by
  obtain ⟨msg, hmsg⟩ := verify_signature_fails recover sha256 s.challenge_resp s.public_key hsig
  have hcv : challenge_verify recover sha256 dgst raw_challenge CHALLENGE_DIFFICULTY
      s.challenge_resp s.public_key = .error msg := by
    unfold challenge_verify
    rw [hmsg]
  have hinit : init_session_on_session_request recover sha256 dgst raw_challenge
      session_id now s = .error (.badRequestInvalidChallenge msg) := by
    unfold init_session_on_session_request
    rw [hcv]
  have hres : session_stage_result recover sha256 dgst st request_id witha raw_challenge
      session_id now s =
      ({ st with starting_session :=
           st.starting_session.filter (fun x => decide (x ≠ session_id)) },
       [(.err request_id session_id .badRequest, witha)],
       .error (.badRequestInvalidChallenge msg)) := by
    unfold session_stage_result
    rw [hinit]
    rfl
  refine ⟨msg, hres, ?_⟩
  rw [hres]
  simp [List.mem_filter]

theorem session_stage_unauthorized_counterexample :
    (session_stage_result (fun _ _ _ _ => some [9]) (fun _ => []) (fun _ _ => [])
        { nodes := exState, starting_session := [exSessionId], resume_forwarding := [] }
        1 5 [] exSessionId 0
        { challenge_resp := List.replicate 65 0, node_id := List.replicate 20 0,
          public_key := [7] }).2.1 =
      [(.err 1 exSessionId .badRequest, 5)] ∧
    StatusCode.badRequest ≠ StatusCode.unauthorized := by
  decide

theorem session_stage_bad_signature_witness :
    ∃ msg,
      session_stage_result (fun _ _ _ _ => some [9]) (fun _ => []) (fun _ _ => [])
          { nodes := exState, starting_session := [exSessionId], resume_forwarding := [] }
          1 5 [] exSessionId 0
          { challenge_resp := List.replicate 65 0, node_id := List.replicate 20 0,
            public_key := [7] } =
        ({ nodes := exState, starting_session := [exSessionId], resume_forwarding := [] :
            ServerState } |> fun st0 =>
          { st0 with starting_session :=
              st0.starting_session.filter (fun x => decide (x ≠ exSessionId)) },
         [(.err 1 exSessionId .badRequest, 5)],
         .error (.badRequestInvalidChallenge msg)) ∧
      exSessionId ∉ (session_stage_result (fun _ _ _ _ => some [9]) (fun _ => []) (fun _ _ => [])
          { nodes := exState, starting_session := [exSessionId], resume_forwarding := [] }
          1 5 [] exSessionId 0
          { challenge_resp := List.replicate 65 0, node_id := List.replicate 20 0,
            public_key := [7] }).1.starting_session :=
  session_stage_bad_signature (fun _ _ _ _ => some [9]) (fun _ => []) (fun _ _ => [])
    { nodes := exState, starting_session := [exSessionId], resume_forwarding := [] }
    1 5 [] exSessionId 0
    { challenge_resp := List.replicate 65 0, node_id := List.replicate 20 0,
      public_key := [7] }
    (by unfold signature_matches; decide)

/-! ## C3 — Forward from an unknown session id -/

/-- C3 (amended): a Forward frame whose session id is not registered is
dropped — the dispatch fails internally with
`Unauthorized::SessionNotFound`, nothing is forwarded — and, because a
Forward frame carries no `request_id`, no response of any kind is sent
back to the sender. -/
theorem run_step_forward_unknown_spec (now : Nat) (rate : RateCheck) (st : ServerState)
    (f : Fwd) (froma : Addr)
    (h : alookup st.nodes.sessions f.session_id = none) :
    run_step_forward now rate st f froma =
      (.error (.unauthorizedSessionNotFound f.session_id), st, []) := by
  have hupd : (update_seen st.nodes f.session_id now).2 = st.nodes := by
    unfold update_seen
    rw [h]
  have hfwd : forward rate { st with nodes := (update_seen st.nodes f.session_id now).2 }
      f froma = (.error (.unauthorizedSessionNotFound f.session_id),
        { st with nodes := (update_seen st.nodes f.session_id now).2 }, []) := by
    unfold forward
    have hget : get_by_session (update_seen st.nodes f.session_id now).2 f.session_id = none := by
      rw [hupd]
      unfold get_by_session
      rw [h]
    rw [hget]
  unfold run_step_forward
  dsimp only
  rw [hfwd, hupd]
  rfl

theorem run_step_forward_unknown_counterexample :
    (run_step_forward 11 .ok { nodes := exState, starting_session := [], resume_forwarding := [] }
        { session_id := List.replicate 16 9, slot := 0, flags := 0, payload := [1, 2, 3] }
        3).2.2 = [] ∧
    (run_step_forward 11 .ok { nodes := exState, starting_session := [], resume_forwarding := [] }
        { session_id := List.replicate 16 9, slot := 0, flags := 0, payload := [1, 2, 3] }
        3).1 = .error (.unauthorizedSessionNotFound (List.replicate 16 9)) :=
  ⟨by decide, rfl⟩

theorem run_step_forward_unknown_witness :
    run_step_forward 12 .ok { nodes := exState, starting_session := [], resume_forwarding := [] }
        { session_id := List.replicate 16 8, slot := 0, flags := 0, payload := [4] } 6 =
      (.error (.unauthorizedSessionNotFound (List.replicate 16 8)),
       { nodes := exState, starting_session := [], resume_forwarding := [] }, []) :=
  run_step_forward_unknown_spec 12 .ok
    { nodes := exState, starting_session := [], resume_forwarding := [] }
    { session_id := List.replicate 16 8, slot := 0, flags := 0, payload := [4] } 6 (by decide)

/-! ## C8 — one pass of the resume sweep -/

theorem sorted_takeWhile_eq_filter (now : Nat) :
    ∀ l : List (Nat × SessionId × Addr),
      List.Pairwise (fun a b => a.1 ≤ b.1) l →
      l.takeWhile (fun e => decide (e.1 ≤ now)) = l.filter (fun e => decide (e.1 ≤ now)) := by
  intro l
  induction l with
  | nil => intro _; rfl
  | cons x t ih =>
    intro hp
    rw [List.pairwise_cons] at hp
    obtain ⟨hall, hp1⟩ := hp
    by_cases hx : x.1 ≤ now
    · simp only [List.takeWhile_cons, List.filter_cons, decide_eq_true_eq, if_pos hx]
      rw [ih hp1]
    · simp only [List.takeWhile_cons, List.filter_cons, decide_eq_true_eq, if_neg hx]
      symm
      rw [List.filter_eq_nil_iff]
      intro y hy
      have := hall y hy
      simp only [decide_eq_true_eq]
      omega

theorem sorted_dropWhile_eq_filter (now : Nat) :
    ∀ l : List (Nat × SessionId × Addr),
      List.Pairwise (fun a b => a.1 ≤ b.1) l →
      l.dropWhile (fun e => decide (e.1 ≤ now)) = l.filter (fun e => decide (now < e.1)) := by
  intro l
  induction l with
  | nil => intro _; rfl
  | cons x t ih =>
    intro hp
    rw [List.pairwise_cons] at hp
    obtain ⟨hall, hp1⟩ := hp
    by_cases hx : x.1 ≤ now
    · simp only [List.dropWhile_cons, List.filter_cons, decide_eq_true_eq, if_pos hx,
        if_neg (by omega : ¬ now < x.1)]
      exact ih hp1
    · simp only [List.dropWhile_cons, List.filter_cons, decide_eq_true_eq, if_neg hx,
        if_pos (by omega : now < x.1)]
      congr 1
      symm
      rw [List.filter_eq_self]
      intro y hy
      have := hall y hy
      simp only [decide_eq_true_eq]
      omega

/-- C8: one pass of the resume sweep at instant `now` removes exactly the
queue entries with `resume_at ≤ now` (none with a still-future instant),
leaves the registry alone, and sends a `Control{ResumeForwarding}`
carrying the session's own slot to the recorded address exactly for the
removed entries whose session is still registered, in queue order. -/
theorem check_resume_forwarding_spec (now : Nat) (st : ServerState)
    (hsorted : List.Pairwise (fun a b => a.1 ≤ b.1) st.resume_forwarding) :
    (check_resume_forwarding now st).1.resume_forwarding =
      st.resume_forwarding.filter (fun e => decide (now < e.1)) ∧
    (check_resume_forwarding now st).1.nodes = st.nodes ∧
    (check_resume_forwarding now st).2 =
      (st.resume_forwarding.filter (fun e => decide (e.1 ≤ now))).filterMap
        (fun e => (get_by_session st.nodes e.2.1).map
          (fun ns => (OutPacket.control e.2.1 (.resumeForwarding ns.info.slot), e.2.2))) := by
  refine ⟨?_, rfl, ?_⟩
  · unfold check_resume_forwarding
    dsimp only
    exact sorted_dropWhile_eq_filter now st.resume_forwarding hsorted
  · unfold check_resume_forwarding
    dsimp only
    rw [sorted_takeWhile_eq_filter now st.resume_forwarding hsorted]
    rw [List.map_filterMap]
    congr 1
    funext e
    rw [Option.map_map]
    rfl

theorem check_resume_forwarding_spec_witness :
    (check_resume_forwarding 3
      { nodes := exState, starting_session := [],
        resume_forwarding := [(1, exSessionId, 4), (5, exSessionId, 4)] }).1.resume_forwarding =
      [(1, exSessionId, 4), (5, exSessionId, 4)].filter (fun e => decide ((3 : Nat) < e.1)) ∧
    (check_resume_forwarding 3
      { nodes := exState, starting_session := [],
        resume_forwarding := [(1, exSessionId, 4), (5, exSessionId, 4)] }).1.nodes = exState ∧
    (check_resume_forwarding 3
      { nodes := exState, starting_session := [],
        resume_forwarding := [(1, exSessionId, 4), (5, exSessionId, 4)] }).2 =
      ([(1, exSessionId, 4), (5, exSessionId, 4)].filter
          (fun e => decide (e.1 ≤ (3 : Nat)))).filterMap
        (fun e => (get_by_session exState e.2.1).map
          (fun ns => (OutPacket.control e.2.1 (.resumeForwarding ns.info.slot), e.2.2))) :=
  check_resume_forwarding_spec 3
    { nodes := exState, starting_session := [],
      resume_forwarding := [(1, exSessionId, 4), (5, exSessionId, 4)] }
    (by decide)

/-! ## C1 — the neighbourhood query: support lemmas -/

theorem countOnesAux_eq_zero : ∀ (f m : Nat), m < 2 ^ f →
    countOnesAux f m = 0 → m = 0 := by
  intro f
  induction f with
  | zero =>
    intro m hm _
    simpa using hm
  | succ f1 ih =>
    intro m hm h
    rw [countOnesAux] at h
    have h1 : countOnesAux f1 (m / 2) = 0 := by omega
    have h2 : m / 2 < 2 ^ f1 := by
      rw [pow_succ] at hm
      omega
    have := ih (m / 2) h2 h1
    omega

theorem countOnes_eq_zero {m : Nat} (h : countOnes m = 0) : m = 0 :=
  countOnesAux_eq_zero m m (Nat.lt_two_pow m) h

theorem hamming_self : ∀ x : NodeId, hamming_distance x x = 0 := by
  intro x
  induction x with
  | nil => rfl
  | cons a t ih =>
    unfold hamming_distance at ih ⊢
    simp only [List.zipWith_cons_cons, List.sum_cons, Nat.xor_self]
    rw [ih]
    rfl

theorem hamming_eq_zero : ∀ x y : NodeId, x.length = y.length →
    hamming_distance x y = 0 → x = y := by
  intro x
  induction x with
  | nil =>
    intro y hl _
    cases y with
    | nil => rfl
    | cons b t => simp at hl
  | cons a t ih =>
    intro y hl h
    cases y with
    | nil => simp at hl
    | cons b u =>
      unfold hamming_distance at h
      simp only [List.zipWith_cons_cons, List.sum_cons] at h
      have h1 : countOnes (a ^^^ b) = 0 := by omega
      have hab : a = b := Nat.xor_eq_zero.mp (countOnes_eq_zero h1)
      have h2 : hamming_distance t u = 0 := by
        unfold hamming_distance
        omega
      have htl : t.length = u.length := by simpa using hl
      rw [hab, ih u htl h2]

/-- Recursive form of the occupied `(slot index, node id)` pairs,
starting the enumeration at `k`. -/
def pairsAux : Nat → List (Option NodeSession) → List (Nat × NodeId)
  | _, [] => []
  | k, none :: rest => pairsAux (k + 1) rest
  | k, some e :: rest => (k, e.info.node_id) :: pairsAux (k + 1) rest

theorem enumFrom_filterMap_eq_pairsAux :
    ∀ (l : List (Option NodeSession)) (k : Nat),
      (List.enumFrom k l).filterMap (fun p => p.2.map (fun e => (p.1, e.info.node_id))) =
        pairsAux k l := by
  intro l
  induction l with
  | nil => intro k; rfl
  | cons o rest ih =>
    intro k
    cases o with
    | none => exact ih (k + 1)
    | some e => exact congrArg (List.cons _) (ih (k + 1))

theorem occupiedPairs_eq_pairsAux (st : NodesState) :
    occupiedPairs st = pairsAux 0 st.slots :=
  enumFrom_filterMap_eq_pairsAux st.slots 0

theorem pairsAux_mem : ∀ (l : List (Option NodeSession)) (k : Nat) (x : Nat × NodeId),
    x ∈ pairsAux k l ↔
      ∃ e, k ≤ x.1 ∧ l[x.1 - k]? = some (some e) ∧ x.2 = e.info.node_id := by
  intro l
  induction l with
  | nil =>
    intro k x
    simp [pairsAux]
  | cons o rest ih =>
    intro k x
    obtain ⟨x1, x2⟩ := x
    cases o with
    | none =>
      rw [show pairsAux k (none :: rest) = pairsAux (k + 1) rest from rfl, ih (k + 1)]
      constructor
      · rintro ⟨e, hk, hget, hn⟩
        refine ⟨e, by omega, ?_, hn⟩
        have harith : x1 - k = (x1 - (k + 1)) + 1 := by omega
        rw [harith]
        simpa using hget
      · rintro ⟨e, hk, hget, hn⟩
        by_cases hxk : x1 = k
        · subst hxk
          simp at hget
        · refine ⟨e, by omega, ?_, hn⟩
          have harith : x1 - k = (x1 - (k + 1)) + 1 := by omega
          rw [harith] at hget
          simpa using hget
    | some e0 =>
      rw [show pairsAux k (some e0 :: rest) = (k, e0.info.node_id) :: pairsAux (k + 1) rest
          from rfl]
      rw [List.mem_cons, ih (k + 1)]
      constructor
      · rintro (heq | ⟨e, hk, hget, hn⟩)
        · rw [Prod.mk.injEq] at heq
          obtain ⟨h1, h2⟩ := heq
          subst h1
          exact ⟨e0, le_refl _, by simp, h2⟩
        · refine ⟨e, by omega, ?_, hn⟩
          have harith : x1 - k = (x1 - (k + 1)) + 1 := by omega
          rw [harith]
          simpa using hget
      · rintro ⟨e, hk, hget, hn⟩
        by_cases hxk : x1 = k
        · subst hxk
          simp at hget
          left
          rw [Prod.mk.injEq]
          refine ⟨rfl, ?_⟩
          rw [hget]
          simpa using hn
        · right
          refine ⟨e, by omega, ?_, hn⟩
          have harith : x1 - k = (x1 - (k + 1)) + 1 := by omega
          rw [harith] at hget
          simpa using hget

theorem pairsAux_fst_ge (l : List (Option NodeSession)) (k : Nat) (x : Nat × NodeId)
    (h : x ∈ pairsAux k l) : k ≤ x.1 := by
  obtain ⟨e, hk, _, _⟩ := (pairsAux_mem l k x).mp h
  exact hk

theorem pairsAux_fst_pairwise_lt : ∀ (l : List (Option NodeSession)) (k : Nat),
    List.Pairwise (fun a b => a.1 < b.1) (pairsAux k l) := by
  intro l
  induction l with
  | nil => intro k; exact List.Pairwise.nil
  | cons o rest ih =>
    intro k
    cases o with
    | none => exact ih (k + 1)
    | some e =>
      rw [show pairsAux k (some e :: rest) = (k, e.info.node_id) :: pairsAux (k + 1) rest
          from rfl]
      rw [List.pairwise_cons]
      refine ⟨?_, ih (k + 1)⟩
      intro y hy
      have := pairsAux_fst_ge rest (k + 1) y hy
      omega

theorem pairsAux_length : ∀ (l : List (Option NodeSession)) (k : Nat),
    (pairsAux k l).length = l.countP (fun o => o.isSome) := by
  intro l
  induction l with
  | nil => intro k; rfl
  | cons o rest ih =>
    intro k
    cases o with
    | none =>
      rw [show pairsAux k (none :: rest) = pairsAux (k + 1) rest from rfl, ih (k + 1),
        List.countP_cons]
      simp
    | some e =>
      rw [show pairsAux k (some e :: rest) = (k, e.info.node_id) :: pairsAux (k + 1) rest
          from rfl]
      rw [List.length_cons, ih (k + 1), List.countP_cons]
      simp

/-- C1: for a registry satisfying the documented invariants and a
registered session `s`, `neighbours s k` succeeds and returns at most
`min k (live - 1)` sessions, each stored in some occupied slot and none
of them the caller's own session, listed in non-decreasing Hamming
distance from the caller's node id with ties broken by ascending slot
index. -/
theorem neighbours_spec (st : NodesState) (s : SessionId) (k : Nat)
    (hInv : RegInv st) (i : Nat) (hs : alookup st.sessions s = some i) :
    ∃ caller res,
      slotEntry st i = some caller ∧ caller.session = s ∧
      neighbours st s k = .ok res ∧
      res.length ≤ min k (live st - 1) ∧
      (∀ e ∈ res, (∃ j, slotEntry st j = some e) ∧ e.session ≠ s) ∧
      List.Pairwise (fun a b =>
        hamming_distance a.info.node_id caller.info.node_id <
          hamming_distance b.info.node_id caller.info.node_id ∨
        (hamming_distance a.info.node_id caller.info.node_id =
            hamming_distance b.info.node_id caller.info.node_id ∧
          a.info.slot < b.info.slot)) res := by
  obtain ⟨caller, hcal, hcs⟩ := (hInv.session_iff s i).mp hs
  have hcp : (i, caller.info.node_id) ∈ occupiedPairs st := by
    rw [occupiedPairs_eq_pairsAux, pairsAux_mem]
    refine ⟨caller, Nat.zero_le i, ?_, rfl⟩
    simpa using join_eq_some.mp hcal
  have hperm : (List.insertionSort (nbLE caller.info.node_id) (occupiedPairs st)).Perm
      (occupiedPairs st) := List.perm_insertionSort _ _
  have hsorted : List.Sorted (nbLE caller.info.node_id)
      (List.insertionSort (nbLE caller.info.node_id) (occupiedPairs st)) :=
    List.sorted_insertionSort _ _
  -- every occupied pair other than the caller's sits at strictly
  -- positive Hamming distance from the caller
  have hstrict : ∀ x ∈ occupiedPairs st, x ≠ (i, caller.info.node_id) →
      0 < hamming_distance x.2 caller.info.node_id := by
    intro x hx hne
    rcases Nat.eq_zero_or_pos (hamming_distance x.2 caller.info.node_id) with h0 | h
    · exfalso
      obtain ⟨e, _, hget, hn⟩ := (pairsAux_mem _ 0 x).mp
        (by rwa [occupiedPairs_eq_pairsAux] at hx)
      have hget2 : st.slots[x.1]? = some (some e) := by simpa using hget
      have hgetE : slotEntry st x.1 = some e := by
        unfold slotEntry
        rw [hget2]
        rfl
      have hlen1 : x.2.length = 20 := by
        rw [hn]
        exact hInv.id_len _ _ hgetE
      have hlen2 : caller.info.node_id.length = 20 := hInv.id_len _ _ hcal
      have hxeq : x.2 = caller.info.node_id := hamming_eq_zero _ _ (by omega) h0
      have hnode1 : alookup st.nodes caller.info.node_id = some x.1 :=
        (hInv.node_iff _ _).mpr ⟨e, hgetE, by rw [← hn, hxeq]⟩
      have hnode2 : alookup st.nodes caller.info.node_id = some i :=
        (hInv.node_iff _ _).mpr ⟨caller, hcal, rfl⟩
      have hx1 : x.1 = i := by
        rw [hnode1] at hnode2
        exact Option.some.inj hnode2
      exact hne (Prod.ext hx1 hxeq)
    · exact h
  -- the sorted list starts with the caller's pair
  have hhead : ∃ t, List.insertionSort (nbLE caller.info.node_id) (occupiedPairs st) =
      (i, caller.info.node_id) :: t := by
    have hmem : (i, caller.info.node_id) ∈
        List.insertionSort (nbLE caller.info.node_id) (occupiedPairs st) :=
      hperm.mem_iff.mpr hcp
    rcases hE : List.insertionSort (nbLE caller.info.node_id) (occupiedPairs st)
      with _ | ⟨h, t⟩
    · rw [hE] at hmem
      cases hmem
    · by_cases hh : h = (i, caller.info.node_id)
      · exact ⟨t, by rw [hh]⟩
      · exfalso
        rw [hE] at hmem hsorted
        have hcpt : (i, caller.info.node_id) ∈ t := by
          rcases List.mem_cons.mp hmem with heq | ht
          · exact absurd heq.symm hh
          · exact ht
        have hrel : nbLE caller.info.node_id h (i, caller.info.node_id) :=
          (List.sorted_cons.mp hsorted).1 _ hcpt
        have hh_pairs : h ∈ occupiedPairs st :=
          hperm.mem_iff.mp (by rw [hE]; exact List.mem_cons_self h t)
        have hpos := hstrict h hh_pairs hh
        have h0 : hamming_distance (i, caller.info.node_id).2 caller.info.node_id = 0 :=
          hamming_self _
        unfold nbLE at hrel
        omega
  obtain ⟨t, hE⟩ := hhead
  have ht_sorted : List.Pairwise (nbLE caller.info.node_id) t := by
    rw [hE] at hsorted
    exact (List.sorted_cons.mp hsorted).2
  have ht_mem : ∀ x ∈ t, x ∈ occupiedPairs st := by
    intro x hx
    exact hperm.mem_iff.mp (by rw [hE]; exact List.mem_cons_of_mem _ hx)
  have hnodup : (((i, caller.info.node_id) :: t).map Prod.fst).Nodup := by
    have h1 : List.Pairwise (fun a b : Nat × NodeId => a.1 < b.1) (occupiedPairs st) := by
      rw [occupiedPairs_eq_pairsAux]
      exact pairsAux_fst_pairwise_lt _ 0
    have h2 : ((occupiedPairs st).map Prod.fst).Nodup :=
      List.pairwise_map.mpr (h1.imp (fun hlt => Nat.ne_of_lt hlt))
    have h3 : (((i, caller.info.node_id) :: t).map Prod.fst).Perm
        ((occupiedPairs st).map Prod.fst) := by
      rw [← hE]
      exact hperm.map Prod.fst
    exact h3.nodup_iff.mpr h2
  have hfst_not : i ∉ t.map Prod.fst := by
    rw [List.map_cons, List.nodup_cons] at hnodup
    exact hnodup.1
  have ht_fst_nodup : (t.map Prod.fst).Nodup := by
    rw [List.map_cons, List.nodup_cons] at hnodup
    exact hnodup.2
  -- the computed result
  have hneigh : neighbours st s k =
      .ok (((t.map Prod.fst).take (min t.length k)).filterMap (fun j => slotEntry st j)) := by
    unfold neighbours
    simp only [hs, hcal]
    rw [hE]
    simp only [List.map_cons, List.length_cons, List.drop_succ_cons, List.drop_zero,
      List.length_map, Nat.add_sub_cancel]
  have hlive : live st = t.length + 1 := by
    have h1 : (occupiedPairs st).length = live st := by
      rw [occupiedPairs_eq_pairsAux]
      exact pairsAux_length _ 0
    have h2 := hperm.length_eq
    rw [hE] at h2
    simp only [List.length_cons] at h2
    omega
  refine ⟨caller, _, hcal, hcs, hneigh, ?_, ?_, ?_⟩
  · -- length bound
    have h1 := List.length_filterMap_le (fun j => slotEntry st j)
      ((t.map Prod.fst).take (min t.length k))
    have h2 := List.length_take (min t.length k) (t.map Prod.fst)
    have h3 : (t.map Prod.fst).length = t.length := List.length_map _ _
    rw [hlive]
    omega
  · -- occupied and not the caller
    intro e he
    obtain ⟨j, hj, hje⟩ := List.mem_filterMap.mp he
    have hjt : j ∈ t.map Prod.fst := (List.take_sublist _ _).subset hj
    refine ⟨⟨j, hje⟩, ?_⟩
    intro hsess
    have : alookup st.sessions s = some j :=
      (hInv.session_iff s j).mpr ⟨e, hje, hsess⟩
    have hji : j = i := by
      rw [hs] at this
      exact (Option.some.inj this).symm
    rw [hji] at hjt
    exact hfst_not hjt
  · -- sortedness with tie-break
    have hpw2 : List.Pairwise (fun a b : Nat × NodeId => a.1 ≠ b.1) t :=
      List.pairwise_map.mp ht_fst_nodup
    have hpw := ht_sorted.and hpw2
    have hR : List.Pairwise (fun j1 j2 => ∀ e1 ∈ slotEntry st j1, ∀ e2 ∈ slotEntry st j2,
        hamming_distance e1.info.node_id caller.info.node_id <
          hamming_distance e2.info.node_id caller.info.node_id ∨
        (hamming_distance e1.info.node_id caller.info.node_id =
            hamming_distance e2.info.node_id caller.info.node_id ∧
          e1.info.slot < e2.info.slot)) (t.map Prod.fst) := by
    
      refine List.pairwise_map.mpr (hpw.imp_of_mem ?_)
      intro x y hx hy hxy
      obtain ⟨hle, hne⟩ := hxy
      intro e1 he1 e2 he2
      obtain ⟨ex, _, hgetx, hnx⟩ := (pairsAux_mem _ 0 x).mp
        (by rw [← occupiedPairs_eq_pairsAux]; exact ht_mem x hx)
      obtain ⟨ey, _, hgety, hny⟩ := (pairsAux_mem _ 0 y).mp
        (by rw [← occupiedPairs_eq_pairsAux]; exact ht_mem y hy)
      have hgetx2 : slotEntry st x.1 = some ex := by
        unfold slotEntry
        rw [show st.slots[x.1]? = some (some ex) from by simpa using hgetx]
        rfl
      have hgety2 : slotEntry st y.1 = some ey := by
        unfold slotEntry
        rw [show st.slots[y.1]? = some (some ey) from by simpa using hgety]
        rfl
      have hex : ex = e1 := by
        have := Option.mem_def.mp he1
        rw [hgetx2] at this
        exact Option.some.inj this
      have hey : ey = e2 := by
        have := Option.mem_def.mp he2
        rw [hgety2] at this
        exact Option.some.inj this
      have hslotx : e1.info.slot = x.1 := by
        rw [← hex]
        exact hInv.slot_eq _ _ hgetx2
      have hsloty : e2.info.slot = y.1 := by
        rw [← hey]
        exact hInv.slot_eq _ _ hgety2
      have hnx2 : e1.info.node_id = x.2 := by rw [← hex, ← hnx]
      have hny2 : e2.info.node_id = y.2 := by rw [← hey, ← hny]
      rw [hslotx, hsloty, hnx2, hny2]
      unfold nbLE at hle
      omega
    have hRtake := hR.sublist (List.take_sublist (min t.length k) (t.map Prod.fst))
    exact List.pairwise_filterMap.mpr hRtake

theorem neighbours_spec_witness :
    ∃ caller res,
      slotEntry exState 0 = some caller ∧ caller.session = exSessionId ∧
      neighbours exState exSessionId 3 = .ok res ∧
      res.length ≤ min 3 (live exState - 1) ∧
      (∀ e ∈ res, (∃ j, slotEntry exState j = some e) ∧ e.session ≠ exSessionId) ∧
      List.Pairwise (fun a b =>
        hamming_distance a.info.node_id caller.info.node_id <
          hamming_distance b.info.node_id caller.info.node_id ∨
        (hamming_distance a.info.node_id caller.info.node_id =
            hamming_distance b.info.node_id caller.info.node_id ∧
          a.info.slot < b.info.slot)) res :=
  neighbours_spec exState exSessionId 3 exState_inv 0 (by decide)
